import Mathlib

/-!
# AnyQuest Webhook Relay: registry and broadcast model

A shallow embedding of `server.js`: the `clients` map, the WebSocket
`connection` and `close` listeners, the `POST /webhook/:id` handler and the
`GET /health` handler, followed by theorems about them.

Modelling conventions.

* A WebSocket object is a `Handle` (its identity); `Array.prototype.indexOf`
  compares objects by identity, so equality of handles is equality of numbers.
* The JavaScript `Map` is an insertion-ordered association list. The functions
  below accept any list; `Map` objects have distinct keys, and `Clients.WF` says so.
* Arrays stored in the map are mutated in place by `push` and `splice`; the
  model writes the mutated array back at the position of the entry that
  `get` returned.
* `ws.send` on a socket whose `readyState` is `OPEN` queues the frame and
  returns; a write that fails is reported later by the socket (it ends in the
  socket's `close` event), not by an exception in the caller. The outcome of
  each queued write is an input of the model (`Sockets.sendFails`).
-/

namespace WebhookRelay

/-! ## Data model -/

/-- Identity of one WebSocket object. -/
abbrev Handle := Nat

/-- The `clients` map of `server.js`: webhook id to array of WebSocket objects,
in insertion order. -/
abbrev Clients := List (String × List Handle)

namespace Clients

/-- The map as created by `new Map()`. -/
def empty : Clients := []

/-- Lookup `Map.prototype.get`: the value of the entry with this key, `none` for `undefined`. -/
def get : Clients → String → Option (List Handle)
  | [], _ => none
  | (k', v) :: rest, k => if k' = k then some v else get rest k

/-- Membership test `Map.prototype.has`. -/
def has (m : Clients) (k : String) : Bool :=
  (m.get k).isSome

/-- Update `Map.prototype.set`: an existing key keeps its position and gets the new value,
a new key is appended. -/
def set : Clients → String → List Handle → Clients
  | [], k, v => [(k, v)]
  | (k', v') :: rest, k, v => if k' = k then (k, v) :: rest else (k', v') :: set rest k v

/-- Removal `Map.prototype.delete`. -/
def delete (m : Clients) (k : String) : Clients :=
  m.filter (fun e => decide (e.1 ≠ k))

/-- Keys of the map, in order. -/
def keys (m : Clients) : List String :=
  m.map Prod.fst

/-- A JavaScript `Map` has no two entries with the same key. -/
def WF (m : Clients) : Prop :=
  m.keys.Nodup

end Clients

/-- Array method `push`: append at the end. -/
def push (a : List Handle) (ws : Handle) : List Handle :=
  a ++ [ws]

/-- Search of `indexOf` from position `i` on: the index of the first element identical
to `ws`, `-1` when there is none. -/
def indexOfFrom : List Handle → Handle → Nat → Int
  | [], _, _ => -1
  | x :: xs, ws, i => if x = ws then (i : Int) else indexOfFrom xs ws (i + 1)

/-- Array method `indexOf`. -/
def indexOf (a : List Handle) (ws : Handle) : Int :=
  indexOfFrom a ws 0

/-- Array method `splice(start, deleteCount)` for a start inside the array: the array
without the `deleteCount` elements from `start` on. -/
def splice (a : List Handle) (start deleteCount : Nat) : List Handle :=
  a.take start ++ a.drop (start + deleteCount)

/-- The handles registered under an identifier: `clients.get(id)`, read as the empty
list when the key is absent. -/
def snapshot (clients : Clients) (id : String) : List Handle :=
  (clients.get id).getD []

/-! ## Connection handling (`wss.on('connection', ...)`) -/

/-- Lines 26-29: create the entry when the key is absent, then push the socket onto the
array found under the key. `clients.get(webhookId).push(ws)` raises a `TypeError`
when `get` returns `undefined`. -/
def register (clients : Clients) (webhookId : String) (ws : Handle) : Except String Clients :=
  let clients1 := if !clients.has webhookId then clients.set webhookId [] else clients
  match clients1.get webhookId with
  | some clientList => .ok (clients1.set webhookId (push clientList ws))
  | none => .error "TypeError: Cannot read properties of undefined (reading push)"

/-- Lines 31-43, the `close` listener installed for `ws` with the captured `webhookId`. -/
def onClose (clients : Clients) (webhookId : String) (ws : Handle) : Clients :=
  match clients.get webhookId with
  | some clientList =>
    let index := indexOf clientList ws
    let clientList1 := if index > -1 then splice clientList index.toNat 1 else clientList
    let clients1 := clients.set webhookId clientList1
    if clientList1.length = 0 then clients1.delete webhookId else clients1
  | none => clients

/-- What the connection listener did: the map afterwards, the identifier captured by the
`close` listener it installed on the socket (if it installed one), and whether it
called `ws.close()`. -/
structure ConnectionResult where
  clients : Clients
  closeListener : Option String
  closed : Bool
  deriving DecidableEq, Repr

/-- Lines 19-48. The argument `webhookId` is the value of
`new URL(request.url, ...).searchParams.get('id')`: `none` for `null`. The test
`if (webhookId)` fails for `null` and for the empty string. -/
def onConnection (clients : Clients) (ws : Handle) (webhookId : Option String) :
    Except String ConnectionResult :=
  match webhookId with
  | some id =>
    if id ≠ "" then
      match register clients id ws with
      | .ok clients1 => .ok { clients := clients1, closeListener := some id, closed := false }
      | .error e => .error e
    else
      .ok { clients := clients, closeListener := none, closed := true }
  | none => .ok { clients := clients, closeListener := none, closed := true }

/-! ## Webhook delivery (`app.post('/webhook/:id', ...)`) -/

/-- Value of `ws.OPEN` in the `ws` library (and in the WebSocket API). -/
def OPEN : Nat := 1

/-- State of the sockets while one webhook is handled: `readyState` of each socket and
whether the write queued by `send` on it fails. -/
structure Sockets where
  readyState : Handle → Nat
  sendFails : Handle → Bool

/-- The `headers` block of the outbound record. -/
structure PayloadHeaders where
  aq_event_type : Option String
  aq_activity_job_id : Option String
  aq_reference_id : Option String
  aq_instructions : Option String
  deriving DecidableEq, Repr

/-- The record built at lines 87-97; `β` is the type of `req.body`. -/
structure Payload (β : Type) where
  id : String
  eventType : Option String
  content : β
  headers : PayloadHeaders

/-- The parts of the request the handler reads: `req.params.id`, `req.headers[name]`
(`none` for `undefined`) and `req.body`. -/
structure Request (β : Type) where
  params_id : String
  headers : String → Option String
  body : β

/-- One call of `ws.send(data)`, with the outcome of the queued write. -/
structure SendAttempt where
  ws : Handle
  data : String
  delivered : Bool
  deriving DecidableEq, Repr

/-- Lines 99-103: `clientList.forEach(ws => { if (ws.readyState === ws.OPEN)
ws.send(JSON.stringify(payload)) })`, as the list of calls of `send` it makes. -/
def forEachSend {β : Type} (stringify : Payload β → String) (sock : Sockets)
    (payload : Payload β) : List Handle → List SendAttempt
  | [] => []
  | ws :: rest =>
    if sock.readyState ws = OPEN then
      { ws := ws, data := stringify payload, delivered := !sock.sendFails ws }
        :: forEachSend stringify sock payload rest
    else
      forEachSend stringify sock payload rest

/-- The HTTP response of `res.send(body)`. -/
structure Response where
  status : Nat
  body : String
  deriving DecidableEq, Repr

/-- What handling one webhook did: the map afterwards, the calls of `send`, the response. -/
structure WebhookResult where
  clients : Clients
  sends : List SendAttempt
  response : Response
  deriving DecidableEq, Repr

/-- Lines 87-97: the record sent to the subscribers. -/
def mkPayload {β : Type} (webhookId : String) (eventType : Option String) (req : Request β) :
    Payload β :=
  { id := webhookId
    eventType := eventType
    content := req.body
    headers :=
      { aq_event_type := eventType
        aq_activity_job_id := req.headers "aq-activity-job-id"
        aq_reference_id := req.headers "aq-reference-id"
        aq_instructions := req.headers "aq-instructions" } }

/-- Lines 75-109. `stringify` is `JSON.stringify`. -/
def postWebhook {β : Type} (stringify : Payload β → String) (sock : Sockets)
    (clients : Clients) (req : Request β) : WebhookResult :=
  let webhookId := req.params_id
  let eventType := req.headers "aq-event-type"
  let sends :=
    match clients.get webhookId with
    | some clientList =>
      if clientList.length > 0 then
        let payload := mkPayload webhookId eventType req
        forEachSend stringify sock payload clientList
      else []
    | none => []
  { clients := clients
    sends := sends
    response := { status := 200, body := "Webhook received successfully" } }

/-! ## Health (`app.get('/health', ...)`) -/

/-- One element of `activeConnections`. -/
structure HealthEntry where
  webhookId : String
  connections : Nat
  deriving DecidableEq, Repr

/-- Body of the health response. -/
structure HealthResponse where
  status : String
  activeConnections : List HealthEntry
  deriving DecidableEq, Repr

/-- Lines 112-120. -/
def getHealth (clients : Clients) : HealthResponse :=
  { status := "ok"
    activeConnections := clients.map (fun e => { webhookId := e.1, connections := e.2.length }) }

/-! ## The server as a transition system -/

/-- Server state: the `clients` map and the `close` listeners installed so far, each
with the socket it is installed on and the identifier it captured. -/
structure Server where
  clients : Clients
  closeListeners : List (Handle × String)
  deriving DecidableEq, Repr

/-- State at start-up. -/
def Server.initial : Server :=
  { clients := Clients.empty, closeListeners := [] }

/-- The events the server reacts to. -/
inductive Event (β : Type) where
  | connection (ws : Handle) (webhookId : Option String)
  | close (ws : Handle)
  | webhook (sock : Sockets) (req : Request β)
  | health

/-- Emission of `close` on `ws`: every listener installed on `ws` runs, in the order of
installation. -/
def emitClose (ws : Handle) : Clients → List (Handle × String) → Clients
  | clients, [] => clients
  | clients, (h, id) :: rest =>
    if h = ws then emitClose ws (onClose clients id ws) rest else emitClose ws clients rest

/-- One event: the state afterwards and the calls of `send` made while handling it. -/
def step {β : Type} (stringify : Payload β → String) (s : Server) :
    Event β → Except String (Server × List SendAttempt)
  | .connection ws webhookId =>
    match onConnection s.clients ws webhookId with
    | .ok r =>
      .ok ({ clients := r.clients
             closeListeners := s.closeListeners ++ (r.closeListener.map (fun id => (ws, id))).toList },
           [])
    | .error e => .error e
  | .close ws => .ok ({ s with clients := emitClose ws s.clients s.closeListeners }, [])
  | .webhook sock req =>
    let r := postWebhook stringify sock s.clients req
    .ok ({ s with clients := r.clients }, r.sends)
  | .health => .ok (s, [])

/-- A finite sequence of events, from state `s`: the final state and the calls of `send`
of each event, in order. -/
def run {β : Type} (stringify : Payload β → String) :
    Server → List (Event β) → Except String (Server × List (List SendAttempt))
  | s, [] => .ok (s, [])
  | s, e :: es =>
    match step stringify s e with
    | .ok (s1, out) =>
      match run stringify s1 es with
      | .ok (s2, outs) => .ok (s2, out :: outs)
      | .error err => .error err
    | .error err => .error err

/-! ## Sample inputs -/

/-- Sockets that are all `OPEN`; `fails` tells which writes fail. -/
def allOpen (fails : Handle → Bool) : Sockets :=
  { readyState := fun _ => OPEN, sendFails := fails }

/-- A webhook request for identifier `"a"` with event type `"order.created"` and a text
body. -/
def sampleRequest : Request String :=
  { params_id := "a"
    headers := fun name => if name = "aq-event-type" then some "order.created" else none
    body := "x=1" }

/-- A serializer for the samples, in place of `JSON.stringify`: identifier, event type
and body, separated by `|`. -/
def sampleStringify (p : Payload String) : String :=
  p.id ++ "|" ++ p.eventType.getD "" ++ "|" ++ p.content

/-- The registry invariant: no entry of the map holds an empty array. -/
def NoEmptyList (clients : Clients) : Prop :=
  ∀ e ∈ clients, e.2 ≠ []

/-- The sockets of the connection events of a sequence, in order. In `server.js` every
upgrade creates its own socket object (lines 56-59), so these are pairwise distinct. -/
def connectionSockets {β : Type} : List (Event β) → List Handle
  | [] => []
  | .connection ws _ :: es => ws :: connectionSockets es
  | .close _ :: es => connectionSockets es
  | .webhook _ _ :: es => connectionSockets es
  | .health :: es => connectionSockets es

/-- Every occurrence of a socket in the list under an identifier has a `close` listener
installed on that socket for that identifier. -/
def ListenersCover (s : Server) : Prop :=
  ∀ (ws : Handle) (id : String),
    (snapshot s.clients id).count ws ≤ s.closeListeners.count (ws, id)

/-! ## Lemmas on the map and the array operations -/

namespace Clients

theorem get_set_same (m : Clients) (k : String) (v : List Handle) :
    (m.set k v).get k = some v := by
  induction m with
  | nil => simp [set, get]
  | cons e rest ih =>
    obtain ⟨k', v'⟩ := e
    by_cases hk : k' = k
    · simp [set, get, hk]
    · simp [set, get, hk, ih]

theorem get_set_other (m : Clients) (k k' : String) (v : List Handle) (h : k' ≠ k) :
    (m.set k v).get k' = m.get k' := by
  induction m with
  | nil => simp [set, get, Ne.symm h]
  | cons e rest ih =>
    obtain ⟨k0, v0⟩ := e
    by_cases hk : k0 = k
    · subst hk
      simp [set, get, Ne.symm h]
    · by_cases hk' : k0 = k'
      · subst hk'
        simp [set, get, h]
      · simp [set, get, hk, hk', ih]

theorem set_set (m : Clients) (k : String) (v w : List Handle) :
    (m.set k v).set k w = m.set k w := by
  induction m with
  | nil => simp [set]
  | cons e rest ih =>
    obtain ⟨k0, v0⟩ := e
    by_cases hk : k0 = k
    · simp [set, hk]
    · simp [set, hk, ih]

theorem get_delete_same (m : Clients) (k : String) : (m.delete k).get k = none := by
  induction m with
  | nil => simp [delete, get]
  | cons e rest ih =>
    obtain ⟨k0, v0⟩ := e
    by_cases hk : k0 = k
    · simpa [delete, List.filter_cons, hk] using ih
    · simpa [delete, List.filter_cons, hk, get] using ih

theorem get_delete_other (m : Clients) (k k' : String) (h : k' ≠ k) :
    (m.delete k).get k' = m.get k' := by
  induction m with
  | nil => simp [delete, get]
  | cons e rest ih =>
    obtain ⟨k0, v0⟩ := e
    by_cases hk : k0 = k
    · subst hk
      simpa [delete, List.filter_cons, get, Ne.symm h] using ih
    · by_cases hk' : k0 = k'
      · subst hk'
        simp [delete, List.filter_cons, h, get]
      · simpa [delete, List.filter_cons, hk, get, hk'] using ih

theorem mem_of_get (m : Clients) (k : String) (v : List Handle) (h : m.get k = some v) :
    (k, v) ∈ m := by
  induction m with
  | nil => simp [get] at h
  | cons e rest ih =>
    obtain ⟨k0, v0⟩ := e
    by_cases hk : k0 = k
    · simp [get, hk] at h
      simp [hk, h]
    · simp [get, hk] at h
      exact List.mem_cons_of_mem _ (ih h)

theorem mem_set (m : Clients) (k : String) (v : List Handle) (e : String × List Handle)
    (h : e ∈ m.set k v) : e ∈ m ∨ e = (k, v) := by
  induction m with
  | nil => simpa [set] using h
  | cons e0 rest ih =>
    obtain ⟨k0, v0⟩ := e0
    by_cases hk : k0 = k
    · simp [set, hk] at h
      rcases h with h | h
      · exact Or.inr h
      · exact Or.inl (List.mem_cons_of_mem _ h)
    · simp [set, hk] at h
      rcases h with h | h
      · exact Or.inl (by simp [h])
      · rcases ih h with h1 | h1
        · exact Or.inl (List.mem_cons_of_mem _ h1)
        · exact Or.inr h1

theorem mem_delete (m : Clients) (k : String) (e : String × List Handle)
    (h : e ∈ m.delete k) : e ∈ m ∧ e.1 ≠ k := by
  simpa [delete, List.mem_filter] using h

theorem has_iff (m : Clients) (k : String) : m.has k = true ↔ ∃ v, m.get k = some v := by
  simp [has, Option.isSome_iff_exists]

end Clients

theorem indexOfFrom_spec (a : List Handle) (ws : Handle) (i : Nat) :
    (ws ∉ a ∧ indexOfFrom a ws i = -1) ∨
      (∃ k : Nat, indexOfFrom a ws i = ((i + k : Nat) : Int) ∧ ws ∈ a ∧
        a.take k ++ a.drop (k + 1) = a.erase ws) := by
  induction a generalizing i with
  | nil => exact Or.inl ⟨by simp, rfl⟩
  | cons x xs ih =>
    by_cases hx : x = ws
    · refine Or.inr ⟨0, ?_, ?_, ?_⟩
      · simp [indexOfFrom, hx]
      · simp [hx]
      · simp [hx]
    · rcases ih (i + 1) with ⟨hn, he⟩ | ⟨k, he, hm, hk⟩
      · refine Or.inl ⟨?_, ?_⟩
        · simp [hn, Ne.symm hx]
        · simp [indexOfFrom, hx, he]
      · refine Or.inr ⟨k + 1, ?_, ?_, ?_⟩
        · simp only [indexOfFrom, hx, if_false, he]
          congr 1
          omega
        · exact List.mem_cons_of_mem _ hm
        · have hne : (x == ws) = false := by simpa using hx
          simp [List.erase_cons, hne, hk]

/-- The removal at lines 35-38 deletes the first occurrence of `ws`, if there is one. -/
theorem splice_indexOf (a : List Handle) (ws : Handle) :
    (if indexOf a ws > -1 then splice a (indexOf a ws).toNat 1 else a) = a.erase ws := by
  unfold indexOf
  rcases indexOfFrom_spec a ws 0 with ⟨hn, he⟩ | ⟨k, he, _, hk⟩
  · simp [he, List.erase_of_not_mem hn]
  · have hpos : indexOfFrom a ws 0 > -1 := by rw [he]; omega
    rw [if_pos hpos, he]
    simpa [splice] using hk

/-- The `close` listener in terms of `List.erase`. -/
theorem onClose_eq (clients : Clients) (webhookId : String) (ws : Handle) :
    onClose clients webhookId ws =
      match clients.get webhookId with
      | some clientList =>
        if clientList.erase ws = [] then (clients.set webhookId (clientList.erase ws)).delete webhookId
        else clients.set webhookId (clientList.erase ws)
      | none => clients := by
  unfold onClose
  cases hg : clients.get webhookId with
  | none => rfl
  | some clientList =>
    simp only [splice_indexOf, List.length_eq_zero]

/-- The registration at lines 26-29 never raises: it stores the old array with `ws`
appended, under the same key. -/
theorem register_eq (clients : Clients) (webhookId : String) (ws : Handle) :
    register clients webhookId ws =
      .ok (clients.set webhookId (push (snapshot clients webhookId) ws)) := by
  unfold register snapshot
  cases hg : clients.get webhookId with
  | none => simp [Clients.has, hg, Clients.get_set_same, Clients.set_set, push]
  | some clientList => simp [Clients.has, hg]

/-! ## Lemmas on the handlers -/

theorem snapshot_set_same (m : Clients) (k : String) (v : List Handle) :
    snapshot (m.set k v) k = v := by
  simp [snapshot, Clients.get_set_same]

theorem noEmptyList_set (m : Clients) (k : String) (v : List Handle)
    (hm : NoEmptyList m) (hv : v ≠ []) : NoEmptyList (m.set k v) := by
  intro e he
  rcases Clients.mem_set m k v e he with h | h
  · exact hm e h
  · simpa [h] using hv

theorem noEmptyList_onClose (clients : Clients) (webhookId : String) (ws : Handle)
    (hm : NoEmptyList clients) : NoEmptyList (onClose clients webhookId ws) := by
  rw [onClose_eq]
  cases hg : clients.get webhookId with
  | none => exact hm
  | some clientList =>
    by_cases he : clientList.erase ws = []
    · simp only [he, if_true]
      intro e hmem
      obtain ⟨h1, h2⟩ := Clients.mem_delete _ _ _ hmem
      rcases Clients.mem_set _ _ _ _ h1 with h | h
      · exact hm e h
      · exact absurd (by simp [h]) h2
    · simp only [he, if_false]
      exact noEmptyList_set _ _ _ hm he

theorem noEmptyList_emitClose (ws : Handle) (listeners : List (Handle × String))
    (clients : Clients) (hm : NoEmptyList clients) :
    NoEmptyList (emitClose ws clients listeners) := by
  induction listeners generalizing clients with
  | nil => exact hm
  | cons l rest ih =>
    obtain ⟨h, id⟩ := l
    by_cases hh : h = ws
    · simpa [emitClose, hh] using ih _ (noEmptyList_onClose clients id ws hm)
    · simpa [emitClose, hh] using ih _ hm

theorem onConnection_eq (clients : Clients) (ws : Handle) (webhookId : Option String) :
    onConnection clients ws webhookId =
      .ok (match webhookId with
        | some id =>
          if id ≠ "" then
            { clients := clients.set id (push (snapshot clients id) ws)
              closeListener := some id
              closed := false }
          else { clients := clients, closeListener := none, closed := true }
        | none => { clients := clients, closeListener := none, closed := true }) := by
  cases webhookId with
  | none => rfl
  | some id =>
    by_cases hid : id = ""
    · simp [onConnection, hid]
    · simp [onConnection, hid, register_eq]

theorem noEmptyList_onConnection (clients : Clients) (ws : Handle) (webhookId : Option String)
    (hm : NoEmptyList clients) :
    ∃ r, onConnection clients ws webhookId = .ok r ∧ NoEmptyList r.clients := by
  refine ⟨_, onConnection_eq clients ws webhookId, ?_⟩
  cases webhookId with
  | none => exact hm
  | some id =>
    by_cases hid : id = ""
    · simpa [hid] using hm
    · simp only [ne_eq, hid, not_false_eq_true, if_true]
      exact noEmptyList_set _ _ _ hm (by simp [push])

theorem step_invariant {β : Type} (stringify : Payload β → String) (s : Server) (e : Event β)
    (hm : NoEmptyList s.clients) :
    ∃ s1 out, step stringify s e = .ok (s1, out) ∧ NoEmptyList s1.clients := by
  cases e with
  | connection ws webhookId =>
    obtain ⟨r, hr, hinv⟩ := noEmptyList_onConnection s.clients ws webhookId hm
    refine ⟨{ clients := r.clients
              closeListeners :=
                s.closeListeners ++ (r.closeListener.map (fun id => (ws, id))).toList }, [], ?_, hinv⟩
    simp [step, hr]
  | close ws => exact ⟨_, _, rfl, noEmptyList_emitClose ws s.closeListeners s.clients hm⟩
  | webhook sock req => exact ⟨_, _, rfl, hm⟩
  | health => exact ⟨_, _, rfl, hm⟩

theorem run_invariant {β : Type} (stringify : Payload β → String) (events : List (Event β))
    (s : Server) (hm : NoEmptyList s.clients) :
    ∃ s1 outs, run stringify s events = .ok (s1, outs) ∧ NoEmptyList s1.clients := by
  induction events generalizing s with
  | nil => exact ⟨s, [], rfl, hm⟩
  | cons e es ih =>
    obtain ⟨s1, out, hs, h1⟩ := step_invariant stringify s e hm
    obtain ⟨s2, outs, hr, h2⟩ := ih s1 h1
    exact ⟨s2, out :: outs, by simp [run, hs, hr], h2⟩

theorem has_iff_snapshot_ne_nil (clients : Clients) (hm : NoEmptyList clients) (id : String) :
    clients.has id = true ↔ snapshot clients id ≠ [] := by
  constructor
  · intro h
    obtain ⟨v, hv⟩ := (Clients.has_iff clients id).1 h
    have := hm _ (Clients.mem_of_get clients id v hv)
    simpa [snapshot, hv] using this
  · intro h
    cases hg : clients.get id with
    | none => simp [snapshot, hg] at h
    | some v => simp [Clients.has, hg]

theorem Clients.set_get_self (m : Clients) (k : String) (v : List Handle)
    (h : m.get k = some v) : m.set k v = m := by
  induction m with
  | nil => simp [Clients.get] at h
  | cons e rest ih =>
    obtain ⟨k0, v0⟩ := e
    by_cases hk : k0 = k
    · simp [Clients.get, hk] at h
      simp [Clients.set, hk, h]
    · simp [Clients.get, hk] at h
      simp [Clients.set, hk, ih h]

theorem onClose_get_other (clients : Clients) (A B : String) (ws : Handle) (hne : B ≠ A) :
    (onClose clients A ws).get B = clients.get B := by
  rw [onClose_eq]
  cases hg : clients.get A with
  | none => rfl
  | some clientList =>
    by_cases he : clientList.erase ws = []
    · simp only [he, if_true]
      rw [Clients.get_delete_other _ _ _ hne, Clients.get_set_other _ _ _ _ hne]
    · simp only [he, if_false]
      rw [Clients.get_set_other _ _ _ _ hne]

/-- After the `close` listener has run, the array under its key is the old one without
the first occurrence of `ws`. -/
theorem snapshot_onClose (clients : Clients) (webhookId : String) (ws : Handle) :
    snapshot (onClose clients webhookId ws) webhookId =
      (snapshot clients webhookId).erase ws := by
  rw [onClose_eq]
  cases hg : clients.get webhookId with
  | none => simp [snapshot, hg]
  | some clientList =>
    by_cases he : clientList.erase ws = []
    · simp [he, snapshot, hg, Clients.get_delete_same]
    · simp [he, snapshot, hg, Clients.get_set_same]

theorem forEachSend_eq_map {β : Type} (stringify : Payload β → String) (sock : Sockets)
    (payload : Payload β) (l : List Handle) :
    forEachSend stringify sock payload l =
      (l.filter (fun h => decide (sock.readyState h = OPEN))).map
        (fun ws => { ws := ws, data := stringify payload, delivered := !sock.sendFails ws }) := by
  induction l with
  | nil => rfl
  | cons x xs ih =>
    by_cases hx : sock.readyState x = OPEN
    · simp [forEachSend, hx, ih]
    · simp [forEachSend, hx, ih]

theorem forEachSend_append {β : Type} (stringify : Payload β → String) (sock : Sockets)
    (payload : Payload β) (l1 l2 : List Handle) :
    forEachSend stringify sock payload (l1 ++ l2) =
      forEachSend stringify sock payload l1 ++ forEachSend stringify sock payload l2 := by
  simp [forEachSend_eq_map]

/-- The calls of `send` of one webhook are those of the loop over the list stored under
the identifier of the request. -/
theorem postWebhook_sends {β : Type} (stringify : Payload β → String) (sock : Sockets)
    (clients : Clients) (req : Request β) :
    (postWebhook stringify sock clients req).sends =
      forEachSend stringify sock (mkPayload req.params_id (req.headers "aq-event-type") req)
        (snapshot clients req.params_id) := by
  unfold postWebhook snapshot
  cases hg : clients.get req.params_id with
  | none => simp [hg, forEachSend]
  | some clientList =>
    cases clientList with
    | nil => simp [hg, forEachSend]
    | cons x xs => simp [hg]

/-! ## Registry invariant -/

/-- C1. From the empty map, every finite sequence of events (connections with or without
an identifier, closes, webhook requests, health requests) runs to a final state, and in
that state no entry holds an empty array: an identifier is a key of the map exactly
when the list of handles stored under it is not empty. -/
theorem registry_invariant_reachable {β : Type} (stringify : Payload β → String)
    (events : List (Event β)) :
    ∃ s outs, run stringify Server.initial events = .ok (s, outs) ∧
      NoEmptyList s.clients ∧
      ∀ id : String, s.clients.has id = true ↔ snapshot s.clients id ≠ [] := by
  obtain ⟨s, outs, hr, hinv⟩ :=
    run_invariant stringify events Server.initial (by intro e he; simp [Server.initial, Clients.empty] at he)
  exact ⟨s, outs, hr, hinv, has_iff_snapshot_ne_nil s.clients hinv⟩

/-! ## Register and unregister -/

theorem snapshot_onClose_other (clients : Clients) (i id : String) (w : Handle)
    (hne : id ≠ i) : snapshot (onClose clients i w) id = snapshot clients id := by
  simp only [snapshot, onClose_get_other clients i id w hne]

theorem count_snapshot_onClose_le (clients : Clients) (i id : String) (w g : Handle) :
    (snapshot (onClose clients i w) id).count g ≤ (snapshot clients id).count g := by
  by_cases hi : id = i
  · subst hi
    rw [snapshot_onClose]
    exact List.Sublist.count_le (List.erase_sublist _ _) g
  · rw [snapshot_onClose_other clients i id w hi]

/-- The close listener changes nothing when the socket is not in the list under its
identifier, on a map without empty lists. -/
theorem onClose_of_not_mem (clients : Clients) (id : String) (h : Handle)
    (hinv : NoEmptyList clients) (hno : h ∉ snapshot clients id) :
    onClose clients id h = clients := by
  rw [onClose_eq]
  cases hg : clients.get id with
  | none => rfl
  | some l =>
    have hl : h ∉ l := by simpa [snapshot, hg] using hno
    have hne : l ≠ [] := hinv _ (Clients.mem_of_get clients id l hg)
    simp only [List.erase_of_not_mem hl, hne, if_false]
    exact Clients.set_get_self clients id l hg

/-- A second run of the close listener changes nothing when the socket occurs at most
once in the list. -/
theorem onClose_twice_of_count_le_one (clients : Clients) (id : String) (h : Handle)
    (hcount : (snapshot clients id).count h ≤ 1) :
    onClose (onClose clients id h) id h = onClose clients id h := by
  cases hg : clients.get id with
  | none =>
    have h1 : onClose clients id h = clients := by rw [onClose_eq, hg]
    rw [h1, h1]
  | some l =>
    have hl : h ∉ l.erase h := by
      have hc : (l.erase h).count h = 0 := by
        have : l.count h ≤ 1 := by simpa [snapshot, hg] using hcount
        rw [List.count_erase_self]
        omega
      exact List.not_mem_of_count_eq_zero hc
    by_cases he : l.erase h = []
    · have h1 : onClose clients id h = (clients.set id (l.erase h)).delete id := by
        rw [onClose_eq, hg]
        simp [he]
      rw [h1]
      rw [onClose_eq, Clients.get_delete_same]
    · have h1 : onClose clients id h = clients.set id (l.erase h) := by
        rw [onClose_eq, hg]
        simp [he]
      rw [h1]
      rw [onClose_eq, Clients.get_set_same]
      simp only [List.erase_of_not_mem hl, he, if_false, Clients.set_set]

/-- Emission of `close` on `h` removes from the list under `id` as many occurrences of
`h` as there are listeners installed on `h` for `id`. -/
theorem emitClose_count (h : Handle) (id : String) (L : List (Handle × String))
    (c : Clients) :
    (snapshot (emitClose h c L) id).count h = (snapshot c id).count h - L.count (h, id) := by
  induction L generalizing c with
  | nil => simp [emitClose]
  | cons l rest ih =>
    obtain ⟨w, i⟩ := l
    by_cases hw : w = h
    · subst hw
      simp only [emitClose, if_true]
      rw [ih]
      by_cases hi : i = id
      · subst hi
        rw [snapshot_onClose, List.count_erase_self, List.count_cons_self]
        omega
      · have hne : (w, i) ≠ (w, id) := fun heq => hi (Prod.mk.inj heq).2
        rw [snapshot_onClose_other c i id w (fun heq => hi heq.symm),
          List.count_cons_of_ne (Ne.symm hne)]
    · have hne : (w, i) ≠ (h, id) := fun heq => hw (Prod.mk.inj heq).1
      simp only [emitClose, hw, if_false]
      rw [ih, List.count_cons_of_ne (Ne.symm hne)]

theorem emitClose_sublist (ws : Handle) (id : String) (L : List (Handle × String))
    (c : Clients) : (snapshot (emitClose ws c L) id).Sublist (snapshot c id) := by
  induction L generalizing c with
  | nil => exact List.Sublist.refl _
  | cons l rest ih =>
    obtain ⟨w, i⟩ := l
    by_cases hw : w = ws
    · simp only [emitClose, hw, if_true]
      refine (ih _).trans ?_
      by_cases hi : id = i
      · subst hi
        rw [snapshot_onClose]
        exact List.erase_sublist _ _
      · rw [snapshot_onClose_other c i id ws hi]
    · simp only [emitClose, hw, if_false]
      exact ih c

/-- Emission of `close` on a socket that is in no list changes nothing. -/
theorem emitClose_of_not_listed (h : Handle) (L : List (Handle × String)) (c : Clients)
    (hinv : NoEmptyList c) (hno : ∀ id, h ∉ snapshot c id) : emitClose h c L = c := by
  induction L with
  | nil => rfl
  | cons l rest ih =>
    obtain ⟨w, i⟩ := l
    by_cases hw : w = h
    · simp only [emitClose, hw, if_true]
      rw [onClose_of_not_mem c i h hinv (hno i)]
      exact ih
    · simp only [emitClose, hw, if_false]
      exact ih

theorem listenersCover_register (s : Server) (id : String) (h : Handle)
    (hc : ListenersCover s) :
    ListenersCover
      { clients := s.clients.set id (push (snapshot s.clients id) h)
        closeListeners := s.closeListeners ++ [(h, id)] } := by
  intro ws i
  have h0 := hc ws i
  by_cases hi : i = id
  · subst hi
    simp only [snapshot_set_same, push, List.count_append]
    by_cases hh : h = ws
    · subst hh
      simp only [List.count_cons_self, List.count_nil]
      omega
    · have hne : (h, i) ≠ (ws, i) := fun heq => hh (Prod.mk.inj heq).1
      rw [List.count_cons_of_ne (Ne.symm hh), List.count_cons_of_ne (Ne.symm hne)]
      simpa using h0
  · have hs : snapshot (s.clients.set id (push (snapshot s.clients id) h)) i =
        snapshot s.clients i := by
      simp only [snapshot, Clients.get_set_other s.clients id i _ hi]
    rw [hs, List.count_append]
    omega

theorem listenersCover_emitClose (s : Server) (ws : Handle) (hc : ListenersCover s) :
    ListenersCover { s with clients := emitClose ws s.clients s.closeListeners } := by
  intro g i
  refine le_trans ?_ (hc g i)
  exact List.Sublist.count_le (emitClose_sublist ws i s.closeListeners s.clients) g

theorem step_connection_eq {β : Type} (stringify : Payload β → String) (s : Server)
    (ws : Handle) (webhookId : Option String) :
    step stringify s (Event.connection ws webhookId) =
      .ok (match webhookId with
        | some id =>
          if id ≠ "" then
            ({ clients := s.clients.set id (push (snapshot s.clients id) ws)
               closeListeners := s.closeListeners ++ [(ws, id)] }, [])
          else (s, [])
        | none => (s, [])) := by
  cases webhookId with
  | none => simp [step, onConnection]
  | some id =>
    by_cases hid : id = ""
    · simp [step, onConnection, hid]
    · simp [step, onConnection, hid, register_eq]

theorem step_listenersCover {β : Type} (stringify : Payload β → String) (s s1 : Server)
    (e : Event β) (out : List SendAttempt) (hs : step stringify s e = .ok (s1, out))
    (hc : ListenersCover s) : ListenersCover s1 := by
  cases e with
  | connection ws webhookId =>
    rw [step_connection_eq] at hs
    cases webhookId with
    | none =>
      simp only [Except.ok.injEq, Prod.mk.injEq] at hs
      rw [← hs.1]; exact hc
    | some id =>
      by_cases hid : id = ""
      · simp only [hid, ne_eq, not_true_eq_false, if_false, Except.ok.injEq,
          Prod.mk.injEq] at hs
        rw [← hs.1]; exact hc
      · simp only [ne_eq, hid, not_false_eq_true, if_true, Except.ok.injEq,
          Prod.mk.injEq] at hs
        rw [← hs.1]; exact listenersCover_register s id ws hc
  | close ws =>
    simp only [step, Except.ok.injEq, Prod.mk.injEq] at hs
    rw [← hs.1]; exact listenersCover_emitClose s ws hc
  | webhook sock req =>
    simp only [step, Except.ok.injEq, Prod.mk.injEq] at hs
    rw [← hs.1]; exact hc
  | health =>
    simp only [step, Except.ok.injEq, Prod.mk.injEq] at hs
    rw [← hs.1]; exact hc

theorem run_listenersCover {β : Type} (stringify : Payload β → String)
    (events : List (Event β)) (s s1 : Server) (outs : List (List SendAttempt))
    (hrun : run stringify s events = .ok (s1, outs)) (hc : ListenersCover s) :
    ListenersCover s1 := by
  induction events generalizing s outs with
  | nil =>
    simp only [run, Except.ok.injEq, Prod.mk.injEq] at hrun
    rw [← hrun.1]; exact hc
  | cons e es ih =>
    simp only [run] at hrun
    cases hs : step stringify s e with
    | error err => simp [hs] at hrun
    | ok r =>
      obtain ⟨sa, out⟩ := r
      simp only [hs] at hrun
      cases hr : run stringify sa es with
      | error err => simp [hr] at hrun
      | ok r2 =>
        obtain ⟨sb, outs2⟩ := r2
        simp only [hr, Except.ok.injEq, Prod.mk.injEq] at hrun
        obtain ⟨rfl, _⟩ := hrun
        exact ih sa outs2 hr (step_listenersCover stringify s sa e out hs hc)

theorem run_noEmptyList {β : Type} (stringify : Payload β → String)
    (events : List (Event β)) (s s1 : Server) (outs : List (List SendAttempt))
    (hrun : run stringify s events = .ok (s1, outs)) (hinv : NoEmptyList s.clients) :
    NoEmptyList s1.clients := by
  obtain ⟨s2, outs2, hr, h2⟩ := run_invariant stringify events s hinv
  rw [hrun] at hr
  simp only [Except.ok.injEq, Prod.mk.injEq] at hr
  rw [hr.1]; exact h2

theorem emitClose_append (h : Handle) (L1 L2 : List (Handle × String)) (c : Clients) :
    emitClose h c (L1 ++ L2) = emitClose h (emitClose h c L1) L2 := by
  induction L1 generalizing c with
  | nil => rfl
  | cons l rest ih =>
    obtain ⟨w, i⟩ := l
    by_cases hw : w = h
    · simp only [List.cons_append, emitClose, hw, if_true]
      exact ih _
    · simp only [List.cons_append, emitClose, hw, if_false]
      exact ih _

theorem emitClose_of_no_listener (h : Handle) (L : List (Handle × String)) (c : Clients)
    (hL : ∀ l ∈ L, l.1 ≠ h) : emitClose h c L = c := by
  induction L with
  | nil => rfl
  | cons l rest ih =>
    obtain ⟨w, i⟩ := l
    have hw : w ≠ h := hL (w, i) (List.mem_cons_self _ _)
    simp only [emitClose, hw, if_false]
    exact ih (fun l hl => hL l (List.mem_cons_of_mem _ hl))

/-- C2. In every state `s` the server reaches from start-up, for every identifier `id` and
socket `h`: the registration of lines 26-29 succeeds and the list under `id` then
contains `h` (for a non-empty `id` this is the connection event, which also installs
the close listener); after the close event of `h` that follows, the list under `id` no
longer contains `h`; and if `h` was the only member, `id` is no longer a key. For a
socket with no earlier listener the close event is one run of the close listener. -/
theorem register_unregister_roundtrip {β : Type} (stringify : Payload β → String)
    (events : List (Event β)) (s : Server) (outs : List (List SendAttempt))
    (hrun : run stringify Server.initial events = .ok (s, outs)) (id : String) (h : Handle) :
    ∃ c1, register s.clients id h = .ok c1 ∧
      h ∈ snapshot c1 id ∧
      (id ≠ "" → step stringify s (Event.connection h (some id)) =
        .ok ({ clients := c1, closeListeners := s.closeListeners ++ [(h, id)] }, [])) ∧
      step stringify { clients := c1, closeListeners := s.closeListeners ++ [(h, id)] }
          (Event.close h) =
        .ok ({ clients := emitClose h c1 (s.closeListeners ++ [(h, id)])
               closeListeners := s.closeListeners ++ [(h, id)] }, []) ∧
      h ∉ snapshot (emitClose h c1 (s.closeListeners ++ [(h, id)])) id ∧
      (snapshot c1 id = [h] →
        (emitClose h c1 (s.closeListeners ++ [(h, id)])).has id = false) ∧
      ((∀ l ∈ s.closeListeners, l.1 ≠ h) →
        emitClose h c1 (s.closeListeners ++ [(h, id)]) = onClose c1 id h) := by
  have hinit : NoEmptyList Server.initial.clients := by
    intro e he
    simp [Server.initial, Clients.empty] at he
  have hcov0 : ListenersCover Server.initial := by
    intro ws i
    simp [Server.initial, Clients.empty, snapshot, Clients.get]
  have hinv : NoEmptyList s.clients := run_noEmptyList stringify events _ s outs hrun hinit
  have hcov : ListenersCover s := run_listenersCover stringify events _ s outs hrun hcov0
  have hcov1 := listenersCover_register s id h hcov
  have hinv1 : NoEmptyList (s.clients.set id (push (snapshot s.clients id) h)) :=
    noEmptyList_set _ _ _ hinv (by simp [push])
  have hgone : h ∉ snapshot (emitClose h (s.clients.set id (push (snapshot s.clients id) h))
      (s.closeListeners ++ [(h, id)])) id := by
    apply List.not_mem_of_count_eq_zero
    rw [emitClose_count]
    have := hcov1 h id
    simp only at this
    omega
  refine ⟨_, register_eq s.clients id h, ?_, ?_, rfl, hgone, ?_, ?_⟩
  · simp [snapshot_set_same, push]
  · intro hid
    rw [step_connection_eq]
    simp [hid]
  · intro hone
    have hsub := emitClose_sublist h id (s.closeListeners ++ [(h, id)])
      (s.clients.set id (push (snapshot s.clients id) h))
    rw [hone] at hsub
    have hnil : snapshot (emitClose h (s.clients.set id (push (snapshot s.clients id) h))
        (s.closeListeners ++ [(h, id)])) id = [] := by
      rcases List.sublist_singleton.1 hsub with h1 | h1
      · exact h1
      · exact absurd (by rw [h1]; simp) hgone
    have hinv2 := noEmptyList_emitClose h (s.closeListeners ++ [(h, id)]) _ hinv1
    have hiff := has_iff_snapshot_ne_nil _ hinv2 id
    cases hb : Clients.has (emitClose h (s.clients.set id (push (snapshot s.clients id) h))
        (s.closeListeners ++ [(h, id)])) id with
    | false => rfl
    | true => exact absurd hnil (hiff.1 hb)
  · intro hfresh
    rw [emitClose_append, emitClose_of_no_listener h s.closeListeners _ hfresh]
    simp [emitClose]

/-- C2, witness: with socket `2` registered under `"b"`, socket `1` connects for `"a"`,
is the only member there, and closes: `"a"` is no longer a key. -/
theorem register_unregister_roundtrip_witness :
    run sampleStringify Server.initial [Event.connection 2 (some "b")] =
      .ok ({ clients := [("b", [2])], closeListeners := [(2, "b")] }, [[]]) ∧
    register [("b", [2])] "a" 1 = .ok [("b", [2]), ("a", [1])] ∧
    snapshot [("b", [2]), ("a", [1])] "a" = [1] ∧
    1 ∉ snapshot (emitClose 1 [("b", [2]), ("a", [1])] ([(2, "b")] ++ [(1, "a")])) "a" ∧
    (emitClose 1 [("b", [2]), ("a", [1])] ([(2, "b")] ++ [(1, "a")])).has "a" = false ∧
    emitClose 1 [("b", [2]), ("a", [1])] ([(2, "b")] ++ [(1, "a")]) =
      onClose [("b", [2]), ("a", [1])] "a" 1 := by
  obtain ⟨c1, hreg, _, _, _, hgone, honly, hone⟩ :=
    register_unregister_roundtrip sampleStringify [Event.connection 2 (some "b")]
      { clients := [("b", [2])], closeListeners := [(2, "b")] } [[]] rfl "a" 1
  have h2 : register [("b", [2])] "a" 1 = .ok [("b", [2]), ("a", [1])] := rfl
  rw [h2] at hreg
  injection hreg with hc
  subst hc
  exact ⟨rfl, rfl, by decide, hgone, honly (by decide), hone (by decide)⟩

/-- C6. For identifiers `B ≠ A`, registering `h` under `A` and running the close listener
for `(A, h)` both leave the lookup of `B` as it was: the same list, and the same answer
to whether `B` is a key. -/
theorem isolation_across_identifiers (clients : Clients) (A B : String) (h : Handle)
    (hne : B ≠ A) :
    (∃ c1, register clients A h = .ok c1 ∧
      c1.get B = clients.get B ∧ c1.has B = clients.has B ∧
      snapshot c1 B = snapshot clients B) ∧
    (onClose clients A h).get B = clients.get B ∧
    (onClose clients A h).has B = clients.has B ∧
    snapshot (onClose clients A h) B = snapshot clients B := by
  have h1 := Clients.get_set_other clients A B (push (snapshot clients A) h) hne
  have h2 := onClose_get_other clients A B h hne
  refine ⟨⟨_, register_eq clients A h, h1, ?_, ?_⟩, h2, ?_, ?_⟩
  · simp only [Clients.has, h1]
  · simp only [snapshot] at h1 ⊢
    rw [h1]
  · simp only [Clients.has, h2]
  · simp only [snapshot, h2]

/-- C6, witness: registering and unregistering handle `3` under `"a"` next to an entry
for `"b"`. -/
theorem isolation_across_identifiers_witness :
    "b" ≠ "a" ∧
      ((∃ c1, register [("a", [1]), ("b", [2])] "a" 3 = .ok c1 ∧
        c1.get "b" = Clients.get [("a", [1]), ("b", [2])] "b" ∧
        c1.has "b" = Clients.has [("a", [1]), ("b", [2])] "b" ∧
        snapshot c1 "b" = snapshot [("a", [1]), ("b", [2])] "b") ∧
      (onClose [("a", [1]), ("b", [2])] "a" 3).get "b" =
        Clients.get [("a", [1]), ("b", [2])] "b" ∧
      (onClose [("a", [1]), ("b", [2])] "a" 3).has "b" =
        Clients.has [("a", [1]), ("b", [2])] "b" ∧
      snapshot (onClose [("a", [1]), ("b", [2])] "a" 3) "b" =
        snapshot [("a", [1]), ("b", [2])] "b") :=
  ⟨by decide, isolation_across_identifiers [("a", [1]), ("b", [2])] "a" "b" 3 (by decide)⟩

theorem step_listeners_sublist {β : Type} (stringify : Payload β → String) (s s1 : Server)
    (e : Event β) (out : List SendAttempt) (hs : step stringify s e = .ok (s1, out)) :
    (s1.closeListeners.map Prod.fst).Sublist
      (s.closeListeners.map Prod.fst ++ connectionSockets [e]) := by
  cases e with
  | connection ws webhookId =>
    rw [step_connection_eq] at hs
    cases webhookId with
    | none =>
      simp only [Except.ok.injEq, Prod.mk.injEq] at hs
      rw [← hs.1]
      exact List.sublist_append_left _ _
    | some id =>
      by_cases hid : id = ""
      · simp only [hid, ne_eq, not_true_eq_false, if_false, Except.ok.injEq,
          Prod.mk.injEq] at hs
        rw [← hs.1]
        exact List.sublist_append_left _ _
      · simp only [ne_eq, hid, not_false_eq_true, if_true, Except.ok.injEq,
          Prod.mk.injEq] at hs
        rw [← hs.1]
        simp [connectionSockets]
  | close ws =>
    simp only [step, Except.ok.injEq, Prod.mk.injEq] at hs
    rw [← hs.1]
    simp [connectionSockets]
  | webhook sock req =>
    simp only [step, Except.ok.injEq, Prod.mk.injEq] at hs
    rw [← hs.1]
    simp [connectionSockets]
  | health =>
    simp only [step, Except.ok.injEq, Prod.mk.injEq] at hs
    rw [← hs.1]
    simp [connectionSockets]

theorem connectionSockets_cons {β : Type} (e : Event β) (es : List (Event β)) :
    connectionSockets (e :: es) = connectionSockets [e] ++ connectionSockets es := by
  cases e <;> simp [connectionSockets]

theorem run_listeners_sublist {β : Type} (stringify : Payload β → String)
    (events : List (Event β)) (s s1 : Server) (outs : List (List SendAttempt))
    (hrun : run stringify s events = .ok (s1, outs)) :
    (s1.closeListeners.map Prod.fst).Sublist
      (s.closeListeners.map Prod.fst ++ connectionSockets events) := by
  induction events generalizing s outs with
  | nil =>
    simp only [run, Except.ok.injEq, Prod.mk.injEq] at hrun
    rw [← hrun.1]
    simp [connectionSockets]
  | cons e es ih =>
    simp only [run] at hrun
    cases hs : step stringify s e with
    | error err => simp [hs] at hrun
    | ok r =>
      obtain ⟨sa, out⟩ := r
      simp only [hs] at hrun
      cases hr : run stringify sa es with
      | error err => simp [hr] at hrun
      | ok r2 =>
        obtain ⟨sb, outs2⟩ := r2
        simp only [hr, Except.ok.injEq, Prod.mk.injEq] at hrun
        obtain ⟨rfl, _⟩ := hrun
        have h1 := ih sa outs2 hr
        have h2 := step_listeners_sublist stringify s sa e out hs
        rw [connectionSockets_cons, ← List.append_assoc]
        exact h1.trans (List.Sublist.append h2 (List.Sublist.refl _))

/-- When every connection of the sequence has its own socket, no socket has two close
listeners. -/
theorem listeners_count_le_one {β : Type} (stringify : Payload β → String)
    (events : List (Event β)) (s : Server) (outs : List (List SendAttempt))
    (hrun : run stringify Server.initial events = .ok (s, outs))
    (hfresh : (connectionSockets events).Nodup) (h : Handle) (id : String) :
    s.closeListeners.count (h, id) ≤ 1 := by
  have hsub := run_listeners_sublist stringify events _ s outs hrun
  simp only [Server.initial, List.map_nil, List.nil_append] at hsub
  have hnd : (s.closeListeners.map Prod.fst).Nodup := List.Nodup.sublist hsub hfresh
  have h1 := List.count_le_count_map s.closeListeners Prod.fst (h, id)
  have h2 := List.nodup_iff_count_le_one.1 hnd h
  simp only at h1
  omega

/-- C7. In every state `s` the server reaches from start-up, for every identifier `id` and
socket `h`: a second close event of `h` leaves the state the first one produced, and
both events return; two runs in a row of the close listener for `(id, h)` end in the
state of one run when `h` has at most one listener for `id`, which is so whenever every
connection has its own socket; and one run changes nothing when `id` is not a key or
`h` is not in the list under `id`. -/
theorem unregister_twice_same_state {β : Type} (stringify : Payload β → String)
    (events : List (Event β)) (s : Server) (outs : List (List SendAttempt))
    (hrun : run stringify Server.initial events = .ok (s, outs)) (id : String) (h : Handle) :
    (step stringify s (Event.close h) =
        .ok ({ s with clients := emitClose h s.clients s.closeListeners }, []) ∧
      step stringify { s with clients := emitClose h s.clients s.closeListeners }
          (Event.close h) =
        .ok ({ s with clients := emitClose h s.clients s.closeListeners }, [])) ∧
    (s.closeListeners.count (h, id) ≤ 1 →
      onClose (onClose s.clients id h) id h = onClose s.clients id h) ∧
    ((connectionSockets events).Nodup →
      onClose (onClose s.clients id h) id h = onClose s.clients id h) ∧
    (s.clients.get id = none → onClose s.clients id h = s.clients) ∧
    (h ∉ snapshot s.clients id → onClose s.clients id h = s.clients) := by
  have hinit : NoEmptyList Server.initial.clients := by
    intro e he
    simp [Server.initial, Clients.empty] at he
  have hcov0 : ListenersCover Server.initial := by
    intro ws i
    simp [Server.initial, Clients.empty, snapshot, Clients.get]
  have hinv : NoEmptyList s.clients := run_noEmptyList stringify events _ s outs hrun hinit
  have hcov : ListenersCover s := run_listenersCover stringify events _ s outs hrun hcov0
  have hone : s.closeListeners.count (h, id) ≤ 1 →
      onClose (onClose s.clients id h) id h = onClose s.clients id h := by
    intro hle
    exact onClose_twice_of_count_le_one s.clients id h (le_trans (hcov h id) hle)
  refine ⟨⟨rfl, ?_⟩, hone, ?_, ?_, ?_⟩
  · have hno : ∀ i, h ∉ snapshot (emitClose h s.clients s.closeListeners) i := by
      intro i
      apply List.not_mem_of_count_eq_zero
      rw [emitClose_count]
      have := hcov h i
      omega
    have hsame : emitClose h (emitClose h s.clients s.closeListeners) s.closeListeners =
        emitClose h s.clients s.closeListeners :=
      emitClose_of_not_listed h s.closeListeners _
        (noEmptyList_emitClose h s.closeListeners s.clients hinv) hno
    simp only [step, hsame]
  · intro hfresh
    exact hone (listeners_count_le_one stringify events s outs hrun hfresh h id)
  · intro hg
    rw [onClose_eq, hg]
  · intro hno
    exact onClose_of_not_mem s.clients id h hinv hno

/-- C7, witness: sockets `1` and `2` are connected for `"a"`. Closing `1` twice is closing
it once; so is running its listener twice; the listener changes nothing for the
identifier `"zz"`, which is not a key, and for socket `9`, which is not in the list. -/
theorem unregister_twice_same_state_witness :
    run sampleStringify Server.initial
        [Event.connection 1 (some "a"), Event.connection 2 (some "a")] =
      .ok ({ clients := [("a", [1, 2])], closeListeners := [(1, "a"), (2, "a")] }, [[], []]) ∧
    step sampleStringify { clients := [("a", [2])], closeListeners := [(1, "a"), (2, "a")] }
        (Event.close 1) =
      .ok ({ clients := [("a", [2])], closeListeners := [(1, "a"), (2, "a")] }, []) ∧
    onClose (onClose [("a", [1, 2])] "a" 1) "a" 1 = onClose [("a", [1, 2])] "a" 1 ∧
    onClose [("a", [1, 2])] "zz" 1 = [("a", [1, 2])] ∧
    onClose [("a", [1, 2])] "a" 9 = [("a", [1, 2])] :=
  ⟨rfl,
    (unregister_twice_same_state sampleStringify
      [Event.connection 1 (some "a"), Event.connection 2 (some "a")]
      { clients := [("a", [1, 2])], closeListeners := [(1, "a"), (2, "a")] } [[], []] rfl
      "a" 1).1.2,
    (unregister_twice_same_state sampleStringify
      [Event.connection 1 (some "a"), Event.connection 2 (some "a")]
      { clients := [("a", [1, 2])], closeListeners := [(1, "a"), (2, "a")] } [[], []] rfl
      "a" 1).2.1 (by decide),
    (unregister_twice_same_state sampleStringify
      [Event.connection 1 (some "a"), Event.connection 2 (some "a")]
      { clients := [("a", [1, 2])], closeListeners := [(1, "a"), (2, "a")] } [[], []] rfl
      "zz" 1).2.2.2.1 (by decide),
    (unregister_twice_same_state sampleStringify
      [Event.connection 1 (some "a"), Event.connection 2 (some "a")]
      { clients := [("a", [1, 2])], closeListeners := [(1, "a"), (2, "a")] } [[], []] rfl
      "a" 9).2.2.2.2 (by decide)⟩

/-! ## The connection listener -/

/-- C10. A connection whose `id` query parameter is missing (`none`) or empty leaves the
map unchanged, installs no close listener and is closed by the listener. A connection
with a non-empty `id` is registered: the listener does not close it, installs the close
listener for that `id`, appends the socket to the list under that `id` and leaves every
other identifier as it was. -/
theorem connection_requires_identifier (clients : Clients) (ws : Handle) :
    onConnection clients ws none =
      .ok { clients := clients, closeListener := none, closed := true } ∧
    onConnection clients ws (some "") =
      .ok { clients := clients, closeListener := none, closed := true } ∧
    ∀ id : String, id ≠ "" →
      ∃ c1, register clients id ws = .ok c1 ∧
        onConnection clients ws (some id) =
          .ok { clients := c1, closeListener := some id, closed := false } ∧
        snapshot c1 id = snapshot clients id ++ [ws] ∧
        ∀ B : String, B ≠ id → c1.get B = clients.get B := by
  refine ⟨rfl, rfl, ?_⟩
  intro id hid
  refine ⟨_, register_eq clients id ws, ?_, ?_, ?_⟩
  · simp [onConnection, hid, register_eq]
  · simp [snapshot_set_same, push]
  · intro B hB
    exact Clients.get_set_other clients id B _ hB

/-! ## Webhook delivery -/

/-- C3. When the `N` handles listed under the identifier of a webhook are all `OPEN`,
handling the webhook makes exactly `N` calls of `send`, one per listed handle in list
order, and every call carries the same string, the serialized payload. -/
theorem fanout_complete {β : Type} (stringify : Payload β → String) (sock : Sockets)
    (clients : Clients) (req : Request β) (N : Nat)
    (hN : (snapshot clients req.params_id).length = N)
    (hopen : ∀ h ∈ snapshot clients req.params_id, sock.readyState h = OPEN) :
    (postWebhook stringify sock clients req).sends.length = N ∧
    (postWebhook stringify sock clients req).sends.map SendAttempt.ws =
      snapshot clients req.params_id ∧
    ∀ a ∈ (postWebhook stringify sock clients req).sends,
      a.data = stringify (mkPayload req.params_id (req.headers "aq-event-type") req) := by
  have hf : (snapshot clients req.params_id).filter
      (fun h => decide (sock.readyState h = OPEN)) = snapshot clients req.params_id := by
    rw [List.filter_eq_self]
    intro h hh
    simpa using hopen h hh
  rw [postWebhook_sends, forEachSend_eq_map, hf]
  refine ⟨by simpa using hN, ?_, ?_⟩
  · simp [List.map_map, Function.comp_def]
  · intro a ha
    obtain ⟨ws, _, rfl⟩ := List.mem_map.1 ha
    rfl

/-- C3, witness: three open handles under `"a"`. -/
theorem fanout_complete_witness :
    (snapshot [("a", [1, 2, 3])] sampleRequest.params_id).length = 3 ∧
    (∀ h ∈ snapshot [("a", [1, 2, 3])] sampleRequest.params_id,
      (allOpen (fun _ => false)).readyState h = OPEN) ∧
    ((postWebhook sampleStringify (allOpen (fun _ => false)) [("a", [1, 2, 3])]
        sampleRequest).sends.length = 3 ∧
      (postWebhook sampleStringify (allOpen (fun _ => false)) [("a", [1, 2, 3])]
        sampleRequest).sends.map SendAttempt.ws = snapshot [("a", [1, 2, 3])] sampleRequest.params_id ∧
      ∀ a ∈ (postWebhook sampleStringify (allOpen (fun _ => false)) [("a", [1, 2, 3])]
          sampleRequest).sends,
        a.data = sampleStringify
          (mkPayload sampleRequest.params_id (sampleRequest.headers "aq-event-type") sampleRequest)) :=
  ⟨by decide, fun _ _ => rfl,
    fanout_complete sampleStringify (allOpen (fun _ => false)) [("a", [1, 2, 3])] sampleRequest 3
      (by decide) (fun _ _ => rfl)⟩

/-- C4. When the write to an `OPEN` handle `h` of the list fails, the loop still goes
through the whole list: the calls of `send` are those for the handles before `h`, the
failed one on `h`, and those for the handles after `h`; every other `OPEN` handle of
the list whose own write does not fail gets the message delivered. -/
theorem partial_failure_containment {β : Type} (stringify : Payload β → String)
    (sock : Sockets) (clients : Clients) (req : Request β) (pre post : List Handle)
    (h : Handle) (hlist : snapshot clients req.params_id = pre ++ h :: post)
    (hopen : sock.readyState h = OPEN) (hfail : sock.sendFails h = true) :
    (postWebhook stringify sock clients req).sends =
      forEachSend stringify sock (mkPayload req.params_id (req.headers "aq-event-type") req) pre ++
        { ws := h
          data := stringify (mkPayload req.params_id (req.headers "aq-event-type") req)
          delivered := false } ::
        forEachSend stringify sock (mkPayload req.params_id (req.headers "aq-event-type") req) post ∧
    ∀ g ∈ pre ++ post, sock.readyState g = OPEN → sock.sendFails g = false →
      { ws := g
        data := stringify (mkPayload req.params_id (req.headers "aq-event-type") req)
        delivered := true } ∈ (postWebhook stringify sock clients req).sends := by
  rw [postWebhook_sends, hlist]
  refine ⟨?_, ?_⟩
  · rw [forEachSend_append]
    simp [forEachSend, hopen, hfail]
  · intro g hg hgo hgf
    rw [forEachSend_eq_map]
    refine List.mem_map.2 ⟨g, ?_, by simp [hgf]⟩
    rw [List.mem_filter]
    refine ⟨?_, by simpa using hgo⟩
    rcases List.mem_append.1 hg with h1 | h1
    · exact List.mem_append_left _ h1
    · exact List.mem_append_right _ (List.mem_cons_of_mem _ h1)

/-- C4, witness: handles `1`, `2`, `3` under `"a"`, all open, the write to `2` fails;
`1` and `3` get the message. -/
theorem partial_failure_containment_witness :
    snapshot [("a", [1, 2, 3])] sampleRequest.params_id = [1] ++ 2 :: [3] ∧
    (allOpen (fun g => decide (g = 2))).readyState 2 = OPEN ∧
    (allOpen (fun g => decide (g = 2))).sendFails 2 = true ∧
    (postWebhook sampleStringify (allOpen (fun g => decide (g = 2))) [("a", [1, 2, 3])]
        sampleRequest).sends =
      [{ ws := 1, data := "a|order.created|x=1", delivered := true },
       { ws := 2, data := "a|order.created|x=1", delivered := false },
       { ws := 3, data := "a|order.created|x=1", delivered := true }] :=
  ⟨by decide, rfl, by decide,
    (partial_failure_containment sampleStringify (allOpen (fun g => decide (g = 2)))
      [("a", [1, 2, 3])] sampleRequest [1] [3] 2 (by decide) rfl (by decide)).1.trans (by decide)⟩

/-- C5, counterexample. Handle `7` is listed under `"a"`, is `OPEN`, and the write to it
fails: the handler makes the failed call of `send`, and `7` is still in the list under
`"a"` when the handler has returned. -/
theorem failed_send_not_pruned :
    (postWebhook sampleStringify (allOpen (fun _ => true)) [("a", [7])] sampleRequest).sends =
      [{ ws := 7, data := "a|order.created|x=1", delivered := false }] ∧
    7 ∈ snapshot
      (postWebhook sampleStringify (allOpen (fun _ => true)) [("a", [7])] sampleRequest).clients
      "a" := by
  decide

/-- C5, amended. When the write to an `OPEN` handle `h` listed under the identifier of a
webhook fails, the handler makes that failed call of `send` and leaves the map as it
was, so `h` is still listed when the handler has returned; `h` leaves the list when its
close listener runs afterwards, and is then gone from the list if it was listed once. -/
theorem failed_send_pruned_on_close {β : Type} (stringify : Payload β → String)
    (sock : Sockets) (clients : Clients) (req : Request β) (h : Handle)
    (hmem : h ∈ snapshot clients req.params_id)
    (hopen : sock.readyState h = OPEN) (hfail : sock.sendFails h = true) :
    { ws := h
      data := stringify (mkPayload req.params_id (req.headers "aq-event-type") req)
      delivered := false } ∈ (postWebhook stringify sock clients req).sends ∧
    (postWebhook stringify sock clients req).clients = clients ∧
    h ∈ snapshot (postWebhook stringify sock clients req).clients req.params_id ∧
    ((snapshot clients req.params_id).count h = 1 →
      h ∉ snapshot
        (onClose (postWebhook stringify sock clients req).clients req.params_id h)
        req.params_id) := by
  have hc : (postWebhook stringify sock clients req).clients = clients := rfl
  refine ⟨?_, hc, by rw [hc]; exact hmem, ?_⟩
  · rw [postWebhook_sends, forEachSend_eq_map]
    refine List.mem_map.2 ⟨h, ?_, by simp [hfail]⟩
    rw [List.mem_filter]
    exact ⟨hmem, by simpa using hopen⟩
  · intro hone
    rw [hc, snapshot_onClose]
    apply List.not_mem_of_count_eq_zero
    rw [List.count_erase_self, hone]

/-- C5, witness: handle `7` alone under `"a"`, open, its write fails. -/
theorem failed_send_pruned_on_close_witness :
    7 ∈ snapshot [("a", [7])] sampleRequest.params_id ∧
    (allOpen (fun _ => true)).readyState 7 = OPEN ∧
    (allOpen (fun _ => true)).sendFails 7 = true ∧
    (postWebhook sampleStringify (allOpen (fun _ => true)) [("a", [7])] sampleRequest).clients =
      [("a", [7])] ∧
    7 ∉ snapshot
      (onClose
        (postWebhook sampleStringify (allOpen (fun _ => true)) [("a", [7])] sampleRequest).clients
        sampleRequest.params_id 7)
      sampleRequest.params_id :=
  ⟨by decide, rfl, rfl,
    (failed_send_pruned_on_close sampleStringify (allOpen (fun _ => true)) [("a", [7])]
      sampleRequest 7 (by decide) rfl rfl).2.1,
    (failed_send_pruned_on_close sampleStringify (allOpen (fun _ => true)) [("a", [7])]
      sampleRequest 7 (by decide) rfl rfl).2.2.2 (by decide)⟩

/-- C8. When no handle is listed under the identifier of a webhook (the identifier is not
a key, or its list is empty), the handler makes no call of `send` and answers with
status 200 and the body `Webhook received successfully`; the response is the same for
every map and every state of the sockets. -/
theorem no_subscriber_acknowledged {β : Type} (stringify : Payload β → String)
    (sock : Sockets) (clients : Clients) (req : Request β)
    (hnone : snapshot clients req.params_id = []) :
    (postWebhook stringify sock clients req).sends = [] ∧
    (postWebhook stringify sock clients req).response =
      { status := 200, body := "Webhook received successfully" } ∧
    ∀ (clients2 : Clients) (sock2 : Sockets),
      (postWebhook stringify sock2 clients2 req).response =
        (postWebhook stringify sock clients req).response := by
  refine ⟨?_, rfl, fun _ _ => rfl⟩
  rw [postWebhook_sends, hnone]
  rfl

/-- C8, witness: a webhook for `"a"` while only `"b"` has a subscriber; the response is
the one given when `"a"` has subscribers. -/
theorem no_subscriber_acknowledged_witness :
    snapshot [("b", [1])] sampleRequest.params_id = [] ∧
    (postWebhook sampleStringify (allOpen (fun _ => false)) [("b", [1])] sampleRequest).sends = [] ∧
    (postWebhook sampleStringify (allOpen (fun _ => false)) [("a", [1, 2])] sampleRequest).response =
      (postWebhook sampleStringify (allOpen (fun _ => false)) [("b", [1])] sampleRequest).response :=
  ⟨by decide,
    (no_subscriber_acknowledged sampleStringify (allOpen (fun _ => false)) [("b", [1])]
      sampleRequest (by decide)).1,
    (no_subscriber_acknowledged sampleStringify (allOpen (fun _ => false)) [("b", [1])]
      sampleRequest (by decide)).2.2 [("a", [1, 2])] (allOpen (fun _ => false))⟩

/-- C9. The handles on which one webhook calls `send` are the handles of the list under
its identifier whose `readyState` is `OPEN`, in list order: no call on a handle that is
not `OPEN`, and for an `OPEN` handle as many calls as it has occurrences in the list. -/
theorem non_open_skipped {β : Type} (stringify : Payload β → String) (sock : Sockets)
    (clients : Clients) (req : Request β) :
    (postWebhook stringify sock clients req).sends.map SendAttempt.ws =
      (snapshot clients req.params_id).filter (fun h => decide (sock.readyState h = OPEN)) ∧
    (∀ a ∈ (postWebhook stringify sock clients req).sends, sock.readyState a.ws = OPEN) ∧
    (∀ h : Handle, sock.readyState h ≠ OPEN →
      h ∉ (postWebhook stringify sock clients req).sends.map SendAttempt.ws) ∧
    (∀ h : Handle, sock.readyState h = OPEN →
      ((postWebhook stringify sock clients req).sends.map SendAttempt.ws).count h =
        (snapshot clients req.params_id).count h) := by
  have hmap : (postWebhook stringify sock clients req).sends.map SendAttempt.ws =
      (snapshot clients req.params_id).filter (fun h => decide (sock.readyState h = OPEN)) := by
    rw [postWebhook_sends, forEachSend_eq_map]
    simp [List.map_map, Function.comp_def]
  refine ⟨hmap, ?_, ?_, ?_⟩
  · intro a ha
    have : a.ws ∈ (postWebhook stringify sock clients req).sends.map SendAttempt.ws :=
      List.mem_map.2 ⟨a, ha, rfl⟩
    rw [hmap, List.mem_filter] at this
    simpa using this.2
  · intro h hno hin
    rw [hmap, List.mem_filter] at hin
    exact hno (by simpa using hin.2)
  · intro h ho
    rw [hmap]
    exact List.count_filter (by simpa using ho)

/-- C9, sample: of the handles `1`, `2`, `3` under `"a"` only `2` is not `OPEN`; the
calls of `send` go to `1` and `3`. -/
theorem non_open_skipped_sample :
    ((postWebhook sampleStringify
        { readyState := fun h => if h = 2 then 3 else OPEN, sendFails := fun _ => false }
        [("a", [1, 2, 3])] sampleRequest).sends.map SendAttempt.ws) = [1, 3] :=
  (non_open_skipped sampleStringify
    { readyState := fun h => if h = 2 then 3 else OPEN, sendFails := fun _ => false }
    [("a", [1, 2, 3])] sampleRequest).1.trans (by decide)

/-- C10, sample: a connection with `id=abc` on the empty map is registered and kept
open. -/
theorem connection_requires_identifier_sample :
    ∃ c1, register [] "abc" 5 = .ok c1 ∧
      onConnection [] 5 (some "abc") =
        .ok { clients := c1, closeListener := some "abc", closed := false } ∧
      snapshot c1 "abc" = snapshot [] "abc" ++ [5] ∧
      ∀ B : String, B ≠ "abc" → c1.get B = Clients.get [] B :=
  (connection_requires_identifier [] 5).2.2 "abc" (by decide)

/-- C1, sample: after a connection for `"abc"`, a webhook, and the close of that
connection, the run ends with the invariant in force. -/
theorem registry_invariant_reachable_sample :
    ∃ s outs,
      run sampleStringify Server.initial
        [Event.connection 5 (some "abc"), Event.webhook (allOpen (fun _ => false)) sampleRequest,
          Event.close 5] = .ok (s, outs) ∧
      NoEmptyList s.clients ∧
      ∀ id : String, s.clients.has id = true ↔ snapshot s.clients id ≠ [] :=
  registry_invariant_reachable sampleStringify
    [Event.connection 5 (some "abc"), Event.webhook (allOpen (fun _ => false)) sampleRequest,
      Event.close 5]

/-! ## Payload, routing and frame of the webhook handler -/

/-- C11. Every message sent while a webhook with path identifier `I`, headers `H` and
body `B` is handled is the serialization of the record with `id = I`,
`eventType = H["aq-event-type"]`, `content = B`, and a `headers` block binding
`aq-event-type`, `aq-activity-job-id`, `aq-reference-id`, `aq-instructions` to the values
of those request headers (`none` when the header is absent); its `aq-event-type` is the
`eventType` of the record. -/
theorem payload_shape {β : Type} (stringify : Payload β → String) (sock : Sockets)
    (clients : Clients) (req : Request β) :
    (∀ a ∈ (postWebhook stringify sock clients req).sends,
      a.data = stringify
        { id := req.params_id
          eventType := req.headers "aq-event-type"
          content := req.body
          headers :=
            { aq_event_type := req.headers "aq-event-type"
              aq_activity_job_id := req.headers "aq-activity-job-id"
              aq_reference_id := req.headers "aq-reference-id"
              aq_instructions := req.headers "aq-instructions" } }) ∧
    (mkPayload req.params_id (req.headers "aq-event-type") req).headers.aq_event_type =
      (mkPayload req.params_id (req.headers "aq-event-type") req).eventType := by
  refine ⟨?_, rfl⟩
  intro a ha
  rw [postWebhook_sends, forEachSend_eq_map] at ha
  obtain ⟨ws, _, rfl⟩ := List.mem_map.1 ha
  rfl

/-- C11, sample: the message for the sample request carries its identifier, event type
and body; the headers the request does not have are absent from the record. -/
theorem payload_shape_sample :
    (∀ a ∈ (postWebhook sampleStringify (allOpen (fun _ => false)) [("a", [1])]
        sampleRequest).sends,
      a.data = sampleStringify
        { id := "a"
          eventType := some "order.created"
          content := "x=1"
          headers :=
            { aq_event_type := some "order.created"
              aq_activity_job_id := none
              aq_reference_id := none
              aq_instructions := none } }) ∧
    (postWebhook sampleStringify (allOpen (fun _ => false)) [("a", [1])] sampleRequest).sends ≠ [] :=
  ⟨(payload_shape sampleStringify (allOpen (fun _ => false)) [("a", [1])] sampleRequest).1,
    by decide⟩

/-- C13. Every handle that gets a send of a webhook for `I` is in the list stored under
exactly the key `I`; a handle that is not in that list gets none, whatever other keys
it is listed under; and every message is the serialization of a record whose `id` is
`I`, a key the receiving handle is listed under. -/
theorem delivery_keyed_by_identifier {β : Type} (stringify : Payload β → String)
    (sock : Sockets) (clients : Clients) (req : Request β) :
    (∀ a ∈ (postWebhook stringify sock clients req).sends,
      a.ws ∈ snapshot clients req.params_id) ∧
    (∀ h : Handle, h ∉ snapshot clients req.params_id →
      h ∉ (postWebhook stringify sock clients req).sends.map SendAttempt.ws) ∧
    (∀ a ∈ (postWebhook stringify sock clients req).sends,
      ∃ p : Payload β, a.data = stringify p ∧ p.id = req.params_id ∧
        a.ws ∈ snapshot clients p.id) := by
  have hmem : ∀ a ∈ (postWebhook stringify sock clients req).sends,
      a.ws ∈ snapshot clients req.params_id ∧
        a.data = stringify (mkPayload req.params_id (req.headers "aq-event-type") req) := by
    intro a ha
    rw [postWebhook_sends, forEachSend_eq_map] at ha
    obtain ⟨ws, hws, rfl⟩ := List.mem_map.1 ha
    exact ⟨(List.mem_filter.1 hws).1, rfl⟩
  refine ⟨fun a ha => (hmem a ha).1, ?_, ?_⟩
  · intro h hno hin
    obtain ⟨a, ha, rfl⟩ := List.mem_map.1 hin
    exact hno (hmem a ha).1
  · intro a ha
    exact ⟨_, (hmem a ha).2, rfl, (hmem a ha).1⟩

/-- C13, sample: handles listed under `"A"` and `"a "` get nothing of a webhook for
`"a"`; only the handle listed under `"a"` does. -/
theorem delivery_keyed_by_identifier_sample :
    (postWebhook sampleStringify (allOpen (fun _ => false))
        [("A", [1]), ("a ", [2]), ("a", [3])] sampleRequest).sends.map SendAttempt.ws = [3] ∧
    1 ∉ (postWebhook sampleStringify (allOpen (fun _ => false))
        [("A", [1]), ("a ", [2]), ("a", [3])] sampleRequest).sends.map SendAttempt.ws :=
  ⟨by decide,
    (delivery_keyed_by_identifier sampleStringify (allOpen (fun _ => false))
      [("A", [1]), ("a ", [2]), ("a", [3])] sampleRequest).2.1 1 (by decide)⟩

/-- C15. Handling a webhook leaves the `clients` map as it was, for every map, request
and state of the sockets: the handler returns the same map, and the server state after
the webhook event is the state before it. -/
theorem webhook_leaves_registry {β : Type} (stringify : Payload β → String) (sock : Sockets)
    (s : Server) (req : Request β) :
    (postWebhook stringify sock s.clients req).clients = s.clients ∧
    step stringify s (Event.webhook sock req) =
      .ok (s, (postWebhook stringify sock s.clients req).sends) := by
  exact ⟨rfl, rfl⟩

/-- C15, sample: a map with open and closed handles is the same after a webhook. -/
theorem webhook_leaves_registry_sample :
    (postWebhook sampleStringify
        { readyState := fun h => if h = 2 then 3 else OPEN, sendFails := fun h => decide (h = 1) }
        [("b", [4]), ("a", [1, 2, 3])] sampleRequest).clients = [("b", [4]), ("a", [1, 2, 3])] :=
  (webhook_leaves_registry sampleStringify
    { readyState := fun h => if h = 2 then 3 else OPEN, sendFails := fun h => decide (h = 1) }
    { clients := [("b", [4]), ("a", [1, 2, 3])], closeListeners := [] } sampleRequest).1

/-! ## Register followed by unregister; what unregister removes -/

theorem Clients.not_mem_of_get_none (m : Clients) (k : String) (h : m.get k = none) :
    ∀ e ∈ m, e.1 ≠ k := by
  induction m with
  | nil => intro e he; simp at he
  | cons e0 rest ih =>
    obtain ⟨k0, v0⟩ := e0
    by_cases hk : k0 = k
    · simp [Clients.get, hk] at h
    · simp only [Clients.get, hk, if_false] at h
      intro e he
      rcases List.mem_cons.1 he with h1 | h1
      · rw [h1]; exact hk
      · exact ih h e h1

theorem Clients.set_of_get_none (m : Clients) (k : String) (v : List Handle)
    (h : m.get k = none) : m.set k v = m ++ [(k, v)] := by
  induction m with
  | nil => rfl
  | cons e0 rest ih =>
    obtain ⟨k0, v0⟩ := e0
    by_cases hk : k0 = k
    · simp [Clients.get, hk] at h
    · simp only [Clients.get, hk, if_false] at h
      simp [Clients.set, hk, ih h]

theorem Clients.delete_append_new (m : Clients) (k : String) (v : List Handle)
    (h : ∀ e ∈ m, e.1 ≠ k) : Clients.delete (m ++ [(k, v)]) k = m := by
  unfold Clients.delete
  rw [List.filter_append]
  have h1 : m.filter (fun e => decide (e.1 ≠ k)) = m := by
    rw [List.filter_eq_self]
    intro e he
    simpa using h e he
  rw [h1]
  simp

/-- C16. On a map without empty lists, registering a handle `h` that is not yet listed
under `id` and then running the close listener for `(id, h)` gives back the map itself:
same keys, same lists, same order. -/
theorem register_unregister_restores (R : Clients) (id : String) (h : Handle)
    (hinv : NoEmptyList R) (hfresh : h ∉ snapshot R id) :
    ∃ c1, register R id h = .ok c1 ∧ onClose c1 id h = R := by
  refine ⟨_, register_eq R id h, ?_⟩
  have he : (snapshot R id ++ [h]).erase h = snapshot R id := by
    rw [List.erase_append_right _ hfresh]
    simp
  rw [onClose_eq, Clients.get_set_same]
  simp only [push, he, Clients.set_set]
  cases hg : R.get id with
  | none =>
    have hs : snapshot R id = [] := by simp [snapshot, hg]
    simp only [hs, if_true]
    rw [Clients.set_of_get_none R id [] hg]
    exact Clients.delete_append_new R id [] (Clients.not_mem_of_get_none R id hg)
  | some l =>
    have hs : snapshot R id = l := by simp [snapshot, hg]
    have hne : l ≠ [] := hinv _ (Clients.mem_of_get R id l hg)
    simp only [hs, hne, if_false]
    exact Clients.set_get_self R id l hg

/-- C16, witness: handle `3` joins and leaves the list `[1, 2]` under `"a"`, next to an
entry for `"b"`. -/
theorem register_unregister_restores_witness :
    NoEmptyList [("b", [9]), ("a", [1, 2])] ∧ 3 ∉ snapshot [("b", [9]), ("a", [1, 2])] "a" ∧
      ∃ c1, register [("b", [9]), ("a", [1, 2])] "a" 3 = .ok c1 ∧
        onClose c1 "a" 3 = [("b", [9]), ("a", [1, 2])] :=
  ⟨by simp [NoEmptyList], by decide,
    register_unregister_restores [("b", [9]), ("a", [1, 2])] "a" 3 (by simp [NoEmptyList])
      (by decide)⟩

/-- C17. The close listener for `(id, h)` removes the first occurrence of `h` from the
list under `id` and nothing else: when `h` is in the list, the list splits around its
first occurrence and the new list is the two parts joined, one element shorter; when
`h` is not in the list, the list is the same; every other handle keeps its number of
occurrences, and the other handles keep their order. -/
theorem unregister_removes_one (clients : Clients) (id : String) (h : Handle) :
    (h ∈ snapshot clients id →
      ∃ pre post, snapshot clients id = pre ++ h :: post ∧ h ∉ pre ∧
        snapshot (onClose clients id h) id = pre ++ post ∧
        (snapshot (onClose clients id h) id).length + 1 = (snapshot clients id).length) ∧
    (h ∉ snapshot clients id → snapshot (onClose clients id h) id = snapshot clients id) ∧
    (∀ g : Handle, g ≠ h →
      (snapshot (onClose clients id h) id).count g = (snapshot clients id).count g) ∧
    (snapshot (onClose clients id h) id).filter (fun g => decide (g ≠ h)) =
      (snapshot clients id).filter (fun g => decide (g ≠ h)) := by
  rw [snapshot_onClose]
  refine ⟨?_, ?_, ?_, ?_⟩
  · intro hmem
    obtain ⟨pre, post, hpre, hsplit, herase⟩ := List.exists_erase_eq hmem
    refine ⟨pre, post, hsplit, hpre, herase, ?_⟩
    rw [herase, hsplit]
    simp
    omega
  · intro hno
    exact List.erase_of_not_mem hno
  · intro g hg
    exact List.count_erase_of_ne hg _
  · by_cases hmem : h ∈ snapshot clients id
    · obtain ⟨pre, post, _, hsplit, herase⟩ := List.exists_erase_eq hmem
      rw [herase, hsplit]
      simp
    · rw [List.erase_of_not_mem hmem]

/-- C17, sample: of the two occurrences of `1` in `[2, 1, 3, 1]` the first one goes. -/
theorem unregister_removes_one_sample :
    snapshot (onClose [("a", [2, 1, 3, 1])] "a" 1) "a" = [2, 3, 1] ∧
    (1 ∈ snapshot [("a", [2, 1, 3, 1])] "a" →
      ∃ pre post, snapshot [("a", [2, 1, 3, 1])] "a" = pre ++ 1 :: post ∧ 1 ∉ pre ∧
        snapshot (onClose [("a", [2, 1, 3, 1])] "a" 1) "a" = pre ++ post ∧
        (snapshot (onClose [("a", [2, 1, 3, 1])] "a" 1) "a").length + 1 =
          (snapshot [("a", [2, 1, 3, 1])] "a").length) :=
  ⟨by decide, (unregister_removes_one [("a", [2, 1, 3, 1])] "a" 1).1⟩

/-! ## Health -/

theorem Clients.mem_keys_set (m : Clients) (k : String) (v : List Handle) (x : String)
    (h : x ∈ (m.set k v).keys) : x ∈ m.keys ∨ x = k := by
  obtain ⟨e, he, rfl⟩ := List.mem_map.1 h
  rcases Clients.mem_set m k v e he with h1 | h1
  · exact Or.inl (List.mem_map.2 ⟨e, h1, rfl⟩)
  · exact Or.inr (by rw [h1])

theorem Clients.wf_set (m : Clients) (k : String) (v : List Handle) (hwf : m.WF) :
    (m.set k v).WF := by
  induction m with
  | nil => simp [Clients.set, Clients.WF, Clients.keys]
  | cons e0 rest ih =>
    obtain ⟨k0, v0⟩ := e0
    have hw : k0 ∉ Clients.keys rest ∧ (Clients.keys rest).Nodup := by
      simpa [Clients.WF, Clients.keys] using hwf
    by_cases hk : k0 = k
    · subst hk
      simpa [Clients.set, Clients.WF, Clients.keys] using hwf
    · have hrest : (Clients.set rest k v).WF := ih hw.2
      have hnot : k0 ∉ (Clients.set rest k v).keys := by
        intro hin
        rcases Clients.mem_keys_set rest k v k0 hin with h1 | h1
        · exact hw.1 h1
        · exact hk h1
      simp only [Clients.set, hk, if_false, Clients.WF, Clients.keys, List.map_cons,
        List.nodup_cons]
      exact ⟨hnot, hrest⟩

theorem Clients.wf_delete (m : Clients) (k : String) (hwf : m.WF) : (m.delete k).WF := by
  unfold Clients.WF Clients.keys Clients.delete
  exact List.Nodup.sublist (List.Sublist.map _ (List.filter_sublist _)) hwf

theorem Clients.get_of_mem (m : Clients) (k : String) (v : List Handle) (hwf : m.WF)
    (h : (k, v) ∈ m) : m.get k = some v := by
  induction m with
  | nil => simp at h
  | cons e0 rest ih =>
    obtain ⟨k0, v0⟩ := e0
    have hw : k0 ∉ Clients.keys rest ∧ (Clients.keys rest).Nodup := by
      simpa [Clients.WF, Clients.keys] using hwf
    rcases List.mem_cons.1 h with h1 | h1
    · injection h1 with h2 h3
      simp [Clients.get, h2, h3]
    · have hne : k0 ≠ k := by
        intro heq
        apply hw.1
        rw [heq]
        exact List.mem_map.2 ⟨(k, v), h1, rfl⟩
      simp only [Clients.get, hne, if_false]
      exact ih hw.2 h1

theorem wf_onClose (clients : Clients) (webhookId : String) (ws : Handle)
    (hwf : clients.WF) : (onClose clients webhookId ws).WF := by
  rw [onClose_eq]
  cases hg : clients.get webhookId with
  | none => exact hwf
  | some clientList =>
    by_cases he : clientList.erase ws = []
    · simp only [he, if_true]
      exact Clients.wf_delete _ _ (Clients.wf_set _ _ _ hwf)
    · simp only [he, if_false]
      exact Clients.wf_set _ _ _ hwf

theorem wf_emitClose (ws : Handle) (listeners : List (Handle × String)) (clients : Clients)
    (hwf : clients.WF) : (emitClose ws clients listeners).WF := by
  induction listeners generalizing clients with
  | nil => exact hwf
  | cons l rest ih =>
    obtain ⟨h, id⟩ := l
    by_cases hh : h = ws
    · simpa [emitClose, hh] using ih _ (wf_onClose clients id ws hwf)
    · simpa [emitClose, hh] using ih _ hwf

theorem step_wf {β : Type} (stringify : Payload β → String) (s : Server) (e : Event β)
    (hwf : s.clients.WF) :
    ∃ s1 out, step stringify s e = .ok (s1, out) ∧ s1.clients.WF := by
  cases e with
  | connection ws webhookId =>
    obtain ⟨r, hr, hr2⟩ : ∃ r, onConnection s.clients ws webhookId = .ok r ∧ r.clients.WF := by
      refine ⟨_, onConnection_eq s.clients ws webhookId, ?_⟩
      cases webhookId with
      | none => exact hwf
      | some id =>
        by_cases hid : id = ""
        · simpa [hid] using hwf
        · simp only [ne_eq, hid, not_false_eq_true, if_true]
          exact Clients.wf_set _ _ _ hwf
    refine ⟨{ clients := r.clients
              closeListeners :=
                s.closeListeners ++ (r.closeListener.map (fun id => (ws, id))).toList }, [], ?_, hr2⟩
    simp [step, hr]
  | close ws => exact ⟨_, _, rfl, wf_emitClose ws s.closeListeners s.clients hwf⟩
  | webhook sock req => exact ⟨_, _, rfl, hwf⟩
  | health => exact ⟨_, _, rfl, hwf⟩

/-- Every state the server reaches from start-up holds a map with distinct keys. -/
theorem run_wf {β : Type} (stringify : Payload β → String) (events : List (Event β))
    (s : Server) (hwf : s.clients.WF) :
    ∃ s1 outs, run stringify s events = .ok (s1, outs) ∧ s1.clients.WF := by
  induction events generalizing s with
  | nil => exact ⟨s, [], rfl, hwf⟩
  | cons e es ih =>
    obtain ⟨s1, out, hs, h1⟩ := step_wf stringify s e hwf
    obtain ⟨s2, outs, hr, h2⟩ := ih s1 h1
    exact ⟨s2, out :: outs, by simp [run, hs, hr], h2⟩

/-- C12. For a map (distinct keys), the health response has status `ok` and a list with
one element per key of the map, in the order of the map: the identifiers of the
elements are the keys, and each element gives the number of handles stored under its
identifier. Handling the request leaves the server state as it was. -/
theorem health_projection {β : Type} (stringify : Payload β → String) (s : Server)
    (hwf : s.clients.WF) :
    (getHealth s.clients).status = "ok" ∧
    (getHealth s.clients).activeConnections.map HealthEntry.webhookId = s.clients.keys ∧
    ((getHealth s.clients).activeConnections.map HealthEntry.webhookId).Nodup ∧
    (∀ id : String, s.clients.has id = true ↔
      id ∈ (getHealth s.clients).activeConnections.map HealthEntry.webhookId) ∧
    (∀ e ∈ (getHealth s.clients).activeConnections,
      e.connections = (snapshot s.clients e.webhookId).length) ∧
    step stringify s Event.health = .ok (s, []) := by
  have hkeys : (getHealth s.clients).activeConnections.map HealthEntry.webhookId =
      s.clients.keys := by
    simp [getHealth, Clients.keys, List.map_map, Function.comp_def]
  refine ⟨rfl, hkeys, by rw [hkeys]; exact hwf, ?_, ?_, rfl⟩
  · intro id
    rw [hkeys, Clients.has_iff]
    constructor
    · rintro ⟨v, hv⟩
      exact List.mem_map.2 ⟨(id, v), Clients.mem_of_get _ _ _ hv, rfl⟩
    · intro hin
      obtain ⟨e, he, rfl⟩ := List.mem_map.1 hin
      exact ⟨e.2, Clients.get_of_mem _ _ _ hwf he⟩
  · intro e he
    obtain ⟨c, hc, rfl⟩ := List.mem_map.1 he
    have hg := Clients.get_of_mem s.clients c.1 c.2 hwf hc
    simp [snapshot, hg]

/-- C12, witness: two identifiers, with two and one subscribers. -/
theorem health_projection_witness :
    Clients.WF [("a", [1, 2]), ("b", [3])] ∧
    getHealth [("a", [1, 2]), ("b", [3])] =
      { status := "ok"
        activeConnections :=
          [{ webhookId := "a", connections := 2 }, { webhookId := "b", connections := 1 }] } ∧
    step sampleStringify { clients := [("a", [1, 2]), ("b", [3])], closeListeners := [] }
      Event.health = .ok ({ clients := [("a", [1, 2]), ("b", [3])], closeListeners := [] }, []) :=
  ⟨by unfold Clients.WF Clients.keys; decide, by decide,
    (health_projection sampleStringify
      { clients := [("a", [1, 2]), ("b", [3])], closeListeners := [] }
      (by unfold Clients.WF Clients.keys; decide)).2.2.2.2.2⟩

/-! ## Events and deliveries over time -/

/-- No event raises: every step yields a state, and only a webhook yields calls of
`send`. -/
theorem step_total {β : Type} (stringify : Payload β → String) (s : Server) (e : Event β) :
    ∃ s1 out, step stringify s e = .ok (s1, out) ∧
      ((∀ sock req, e ≠ Event.webhook sock req) → out = []) := by
  cases e with
  | connection ws webhookId =>
    have hr := onConnection_eq s.clients ws webhookId
    generalize hv : (match webhookId with
        | some id =>
          if id ≠ "" then
            ({ clients := s.clients.set id (push (snapshot s.clients id) ws)
               closeListener := some id
               closed := false } : ConnectionResult)
          else { clients := s.clients, closeListener := none, closed := true }
        | none => { clients := s.clients, closeListener := none, closed := true }) = r at hr
    refine ⟨{ clients := r.clients
              closeListeners :=
                s.closeListeners ++ (r.closeListener.map (fun id => (ws, id))).toList }, [], ?_,
      fun _ => rfl⟩
    simp [step, hr]
  | close ws => exact ⟨_, _, rfl, fun _ => rfl⟩
  | webhook sock req => exact ⟨_, _, rfl, fun h => absurd rfl (h sock req)⟩
  | health => exact ⟨_, _, rfl, fun _ => rfl⟩

theorem run_total {β : Type} (stringify : Payload β → String) (events : List (Event β))
    (s : Server) :
    ∃ s1 outs, run stringify s events = .ok (s1, outs) ∧ outs.length = events.length := by
  induction events generalizing s with
  | nil => exact ⟨s, [], rfl, rfl⟩
  | cons e es ih =>
    obtain ⟨s1, out, hs, _⟩ := step_total stringify s e
    obtain ⟨s2, outs, hr, hl⟩ := ih s1
    exact ⟨s2, out :: outs, by simp [run, hs, hr], by simp [hl]⟩

theorem run_append {β : Type} (stringify : Payload β → String) (es1 es2 : List (Event β))
    (s s1 s2 : Server) (o1 o2 : List (List SendAttempt))
    (h1 : run stringify s es1 = .ok (s1, o1)) (h2 : run stringify s1 es2 = .ok (s2, o2)) :
    run stringify s (es1 ++ es2) = .ok (s2, o1 ++ o2) := by
  induction es1 generalizing s o1 with
  | nil =>
    simp only [run, Except.ok.injEq, Prod.mk.injEq] at h1
    obtain ⟨rfl, rfl⟩ := h1
    simpa using h2
  | cons e es ih =>
    obtain ⟨sa, out, hs, _⟩ := step_total stringify s e
    obtain ⟨sb, outs, hr, _⟩ := run_total stringify es sa
    simp only [run, hs, hr, Except.ok.injEq, Prod.mk.injEq] at h1
    obtain ⟨rfl, rfl⟩ := h1
    have := ih sa outs hr
    simp [run, hs, this]

/-- C14. In an event sequence `pre`, webhook, `post` from any state, the calls of `send`
made for the webhook are those of the handler on the map as it is after `pre`: they go
only to handles listed under the identifier at that moment, so a handle that is not
listed then gets none of them, whatever `post` registers later. Connection and close
events make no call of `send`. -/
theorem no_delivery_of_missed_events {β : Type} (stringify : Payload β → String)
    (s0 : Server) (pre post : List (Event β)) (sock : Sockets) (req : Request β) :
    (∃ s1 outs1 s2 outs2,
      run stringify s0 pre = .ok (s1, outs1) ∧
      run stringify s0 (pre ++ Event.webhook sock req :: post) =
        .ok (s2, outs1 ++ (postWebhook stringify sock s1.clients req).sends :: outs2) ∧
      outs1.length = pre.length ∧ outs2.length = post.length ∧
      (∀ a ∈ (postWebhook stringify sock s1.clients req).sends,
        a.ws ∈ snapshot s1.clients req.params_id) ∧
      (∀ h : Handle, h ∉ snapshot s1.clients req.params_id →
        h ∉ (postWebhook stringify sock s1.clients req).sends.map SendAttempt.ws)) ∧
    (∀ (s : Server) (ws : Handle) (webhookId : Option String),
      ∃ s1, step stringify s (Event.connection ws webhookId) = .ok (s1, [])) ∧
    (∀ (s : Server) (ws : Handle),
      ∃ s1, step stringify s (Event.close ws) = .ok (s1, [])) := by
  refine ⟨?_, ?_, ?_⟩
  · obtain ⟨s1, outs1, h1, hl1⟩ := run_total stringify pre s0
    obtain ⟨s2, outs2, h2, hl2⟩ := run_total stringify post s1
    have hw : run stringify s1 (Event.webhook sock req :: post) =
        .ok (s2, (postWebhook stringify sock s1.clients req).sends :: outs2) := by
      have hstep : step stringify s1 (Event.webhook sock req) =
          .ok (s1, (postWebhook stringify sock s1.clients req).sends) := rfl
      simp [run, hstep, h2]
    have hmem : ∀ a ∈ (postWebhook stringify sock s1.clients req).sends,
        a.ws ∈ snapshot s1.clients req.params_id := by
      intro a ha
      rw [postWebhook_sends, forEachSend_eq_map] at ha
      obtain ⟨ws, hws, rfl⟩ := List.mem_map.1 ha
      exact (List.mem_filter.1 hws).1
    refine ⟨s1, outs1, s2, outs2, h1, run_append stringify _ _ _ _ _ _ _ h1 hw, hl1, hl2,
      hmem, ?_⟩
    intro h hno hin
    obtain ⟨a, ha, rfl⟩ := List.mem_map.1 hin
    exact hno (hmem a ha)
  · intro s ws webhookId
    obtain ⟨s1, out, hs, hout⟩ := step_total stringify s (Event.connection ws webhookId)
    have : out = [] := hout (fun _ _ hne => by cases hne)
    exact ⟨s1, by rw [hs, this]⟩
  · intro s ws
    exact ⟨_, rfl⟩

/-- C14, sample: handle `1` connects for `"a"`, a webhook for `"a"` arrives, then handle
`2` connects for `"a"`: the only send is to `1`, made by the webhook event. -/
theorem no_delivery_of_missed_events_sample :
    run sampleStringify Server.initial
        [Event.connection 1 (some "a"), Event.webhook (allOpen (fun _ => false)) sampleRequest,
          Event.connection 2 (some "a")] =
      .ok ({ clients := [("a", [1, 2])], closeListeners := [(1, "a"), (2, "a")] },
        [[], [{ ws := 1, data := "a|order.created|x=1", delivered := true }], []]) ∧
    ∃ s1 outs1 s2 outs2,
      run sampleStringify Server.initial [Event.connection 1 (some "a")] = .ok (s1, outs1) ∧
      run sampleStringify Server.initial
          ([Event.connection 1 (some "a")] ++
            Event.webhook (allOpen (fun _ => false)) sampleRequest ::
              [Event.connection 2 (some "a")]) =
        .ok (s2, outs1 ++
          (postWebhook sampleStringify (allOpen (fun _ => false)) s1.clients sampleRequest).sends ::
            outs2) ∧
      outs1.length = ([Event.connection 1 (some "a")] : List (Event String)).length ∧
      outs2.length = ([Event.connection 2 (some "a")] : List (Event String)).length ∧
      (∀ a ∈ (postWebhook sampleStringify (allOpen (fun _ => false)) s1.clients
          sampleRequest).sends, a.ws ∈ snapshot s1.clients sampleRequest.params_id) ∧
      (∀ h : Handle, h ∉ snapshot s1.clients sampleRequest.params_id →
        h ∉ (postWebhook sampleStringify (allOpen (fun _ => false)) s1.clients
          sampleRequest).sends.map SendAttempt.ws) :=
  ⟨rfl,
    (no_delivery_of_missed_events sampleStringify Server.initial [Event.connection 1 (some "a")]
      [Event.connection 2 (some "a")] (allOpen (fun _ => false)) sampleRequest).1⟩

end WebhookRelay
